import Mathlib

/-!
Shallow embedding of the quota-server core: the `UserQuota` model and its
`Refresh` eviction rule, Go `time.Parse` with layout `"2006-Jan-02"` at day
granularity, the per-site update protocol `updateLatestUserQuota` and its
retry loop, the `checkQuota` per-site check and aggregation, the per-user
`refreshQuota` sweep step, the `purge` sweep, and (modelled from the spec)
the multi-site notification ingestion front end.
-/

/-- A calendar date at day granularity (the source only ever compares dates
that `time.Parse` produced at midnight UTC, so chronological order is
lexicographic on year, month, day). -/
structure Date where
  year : Nat
  month : Nat
  day : Nat
deriving DecidableEq

/-- Injective numeric key for valid calendar dates (`month ≤ 12 < 100`,
`day ≤ 31 < 100`), so `key` order is chronological order. -/
def Date.key (d : Date) : Nat :=
  (d.year * 100 + d.month) * 100 + d.day

/-- Go `a.After(b)` on two midnight-UTC times: `a` is strictly later. -/
def Date.after (a b : Date) : Bool :=
  decide (b.key < a.key)

/-- `strings.Split(s, sep)` for a one-character separator, on the character
list of the string. Always returns a nonempty list. -/
def splitOnChar (sep : Char) : List Char → List (List Char)
  | [] => [[]]
  | c :: cs =>
    let r := splitOnChar sep cs
    if c = sep then [] :: r
    else
      match r with
      | [] => [[c]]
      | h :: t => (c :: h) :: t

/-- Decimal value of a digit list (used only after `Char.isDigit` checks). -/
def charsToNat (l : List Char) : Nat :=
  l.foldl (fun a c => a * 10 + (c.toNat - 48)) 0

/-- A fixed-width decimal field of Go's time layouts (`"2006"` takes exactly
four digits, `"02"` exactly two). -/
def fixedDigits (n : Nat) (l : List Char) : Option Nat :=
  if l.length = n then
    if l.all Char.isDigit then some (charsToNat l) else none
  else none

/-- ASCII lower-casing, since Go's month-name lookup is case-insensitive. -/
def asciiLower (c : Char) : Char :=
  if 65 ≤ c.toNat ∧ c.toNat ≤ 90 then Char.ofNat (c.toNat + 32) else c

/-- Month number of a three-letter English month abbreviation (`"Jan"`..
`"Dec"`, matched case-insensitively as Go's `lookup` does). -/
def monthIndex (l : List Char) : Option Nat :=
  match l.map asciiLower with
  | ['j', 'a', 'n'] => some 1
  | ['f', 'e', 'b'] => some 2
  | ['m', 'a', 'r'] => some 3
  | ['a', 'p', 'r'] => some 4
  | ['m', 'a', 'y'] => some 5
  | ['j', 'u', 'n'] => some 6
  | ['j', 'u', 'l'] => some 7
  | ['a', 'u', 'g'] => some 8
  | ['s', 'e', 'p'] => some 9
  | ['o', 'c', 't'] => some 10
  | ['n', 'o', 'v'] => some 11
  | ['d', 'e', 'c'] => some 12
  | _ => none

def isLeapYear (y : Nat) : Bool :=
  (y % 4 = 0 && y % 100 ≠ 0) || y % 400 = 0

def daysInMonth (y m : Nat) : Nat :=
  if m = 2 then (if isLeapYear y then 29 else 28)
  else if m = 4 ∨ m = 6 ∨ m = 9 ∨ m = 11 then 30
  else 31

/-- Go `time.Parse("2006-Jan-02", s)` at day granularity: a four-digit year,
a month abbreviation and a two-digit day separated by `'-'`, with the day
validated against the month's length (Go rejects out-of-range days). -/
def parseDateChars (l : List Char) : Option Date :=
  match splitOnChar '-' l with
  | [ys, ms, ds] =>
    match fixedDigits 4 ys, monthIndex ms, fixedDigits 2 ds with
    | some y, some m, some d =>
      if 1 ≤ d ∧ d ≤ daysInMonth y m then some ⟨y, m, d⟩ else none
    | _, _, _ => none
  | _ => none

def parseDate (s : String) : Option Date :=
  parseDateChars s.data

/-- `UserQuota` from quota.go: `Objects` is a Go `map[string]struct{}`,
modelled as a finite set of paths; `MaxLimit` is the capacity. -/
structure UserQuota where
  Objects : Finset String
  MaxLimit : Nat
deriving DecidableEq

/-- `NewUserQuota()`: empty object set with the process-wide `maxLimit`. -/
def newUserQuota (maxLimit : Nat) : UserQuota :=
  ⟨∅, maxLimit⟩

/-- The body of the loop in `UserQuota.Refresh`: an entry is dropped when its
path splits into fewer than 3 `/`-segments, or its leading segment fails
`time.Parse`, or `getCurrentDateInUTC().After(t)` holds (the parsed date is
strictly before `today`). -/
def isStaleEntry (today : Date) (object : String) : Bool :=
  let tokens := splitOnChar '/' object.data
  if tokens.length < 3 then true
  else
    match parseDateChars (tokens.headD []) with
    | none => true
    | some t => Date.after today t

/-- `UserQuota.Refresh` with the ambient `getCurrentDateInUTC()` made an
explicit `today` argument: rebuild `Objects` keeping exactly the entries the
loop does not `continue` past, and report whether any entry was dropped. -/
def UserQuota.Refresh (today : Date) (quota : UserQuota) : UserQuota × Bool :=
  (⟨quota.Objects.filter (fun o => isStaleEntry today o = false), quota.MaxLimit⟩,
   decide (∃ o ∈ quota.Objects, isStaleEntry today o = true))

example : parseDate "2025-Mar-05" = some ⟨2025, 3, 5⟩ := by decide
example : parseDate "2025-Mar-5" = none := by decide
example : parseDate "2025-Feb-30" = none := by decide
example : parseDate "2024-FEB-29" = some ⟨2024, 2, 29⟩ := by decide
example : parseDate "garbage" = none := by decide
example : Date.after ⟨2025, 3, 5⟩ ⟨2025, 3, 4⟩ = true := by decide
example : Date.after ⟨2025, 3, 5⟩ ⟨2025, 3, 5⟩ = false := by decide
example : isStaleEntry ⟨2025, 3, 5⟩ "2025-Mar-05/usera/v1.vm" = false := by decide
example : isStaleEntry ⟨2025, 3, 5⟩ "2025-Mar-04/usera/v1.vm" = true := by decide
example : isStaleEntry ⟨2025, 3, 5⟩ "2025-Mar-06/usera/v1.vm" = false := by decide
example : isStaleEntry ⟨2025, 3, 5⟩ "usera/v1.vm" = true := by decide
example :
    (UserQuota.Refresh ⟨2025, 3, 5⟩ ⟨{"2025-Mar-05/usera/v1.vm"}, 10⟩).1.Objects =
      {"2025-Mar-05/usera/v1.vm"} := by decide

/-- Outcome of `readUserQuota` at one site: a parsed quota with its ETag, a
`NoSuchKey` error (no ledger object yet), or any other read error. -/
inductive ReadResult where
  | ok (quota : UserQuota) (etag : String)
  | noSuchKey
  | otherErr
deriving DecidableEq

/-- The error classes `updateLatestUserQuota` can return: `ok` is Go's `nil`
(success, including the already-present no-op), `readErr` wraps a non-NoSuchKey
GET failure, `etagErr` a missing ETag, `quotaExceeded` is `errMaxLimitExceeded`,
and `writeErr` a failed `updateUserQuota` PUT (CAS conflict or I/O). -/
inductive UpdResult where
  | ok
  | readErr
  | etagErr
  | quotaExceeded
  | writeErr
deriving DecidableEq

/-- Result of one `updateLatestUserQuota` call: its returned error class and,
when a PUT was issued, the quota value handed to `updateUserQuota`. -/
structure UpdOutcome where
  result : UpdResult
  writeAttempt : Option UserQuota
deriving DecidableEq

/-- `updateLatestUserQuota` with the site I/O made explicit: `read` is what
`readUserQuota` produced and `writeSucceeds` whether the conditional PUT
would succeed. Mirrors quota.go lines 143-174: non-NoSuchKey read errors
abort; NoSuchKey synthesizes a fresh quota already holding `path`; otherwise
require a nonempty ETag, evict, treat an already-present `path` as a no-op,
else insert it; in both write paths reject with `errMaxLimitExceeded` when
`len(Objects) > MaxLimit` before attempting the PUT. -/
def updateLatestUserQuota (today : Date) (maxLimit : Nat) (path : String)
    (read : ReadResult) (writeSucceeds : Bool) : UpdOutcome :=
  match read with
  | .otherErr => ⟨.readErr, none⟩
  | .noSuchKey =>
    let q : UserQuota := ⟨insert path (newUserQuota maxLimit).Objects, maxLimit⟩
    if q.MaxLimit < q.Objects.card then ⟨.quotaExceeded, none⟩
    else if writeSucceeds then ⟨.ok, some q⟩ else ⟨.writeErr, some q⟩
  | .ok q0 etag =>
    if etag = "" then ⟨.etagErr, none⟩
    else
      let q1 := (UserQuota.Refresh today q0).1
      if path ∈ q1.Objects then ⟨.ok, none⟩
      else
        let q2 : UserQuota := ⟨insert path q1.Objects, q1.MaxLimit⟩
        if q2.MaxLimit < q2.Objects.card then ⟨.quotaExceeded, none⟩
        else if writeSucceeds then ⟨.ok, some q2⟩ else ⟨.writeErr, some q2⟩

/-- `retryAttempts` from quota.go. -/
def retryAttempts : Nat := 3

/-- `retryTimeout` from quota.go, in seconds. -/
def retryTimeoutSeconds : Nat := 3

/-- The attempt loop of one site's goroutine in `updateQuota`
(`for attempts := 1; attempts <= retryAttempts; attempts++`): run the next
attempt; a `nil` error returns immediately, any non-nil error is kept and the
loop sleeps and continues; exhausting the attempts returns the last error.
`outcome i` is what attempt `i` of `updateLatestUserQuota` returns, `made`
counts attempts already performed and `prevErr` holds the last error. -/
def updateQuotaLoop (outcome : Nat → UpdResult) (prevErr : UpdResult)
    (made : Nat) : List Nat → Nat × UpdResult
  | [] => (made, prevErr)
  | att :: rest =>
    if outcome att = UpdResult.ok then (made + 1, UpdResult.ok)
    else updateQuotaLoop outcome (outcome att) (made + 1) rest

/-- One site's full retry run in `updateQuota`: attempts `0, 1, 2` (Go's
`attempts = 1..3`), returning how many attempts ran and the final error. -/
def updateQuotaPerSite (outcome : Nat → UpdResult) : Nat × UpdResult :=
  updateQuotaLoop outcome UpdResult.ok 0 (List.range retryAttempts)

/-- Per-site outcome of `checkQuota`'s goroutine: within capacity (`nil`),
`errMaxLimitExceeded`, or some other failure (`code` tells them apart). -/
inductive CheckOutcome where
  | ok
  | exceeded
  | siteFailure (code : Nat)
deriving DecidableEq

/-- The per-site body of `checkQuota` (quota.go lines 185-197), as written:
when the read fails with a code other than `NoSuchKey` it returns `nil`
(the branch carrying the `// new user` comment), when it fails with
`NoSuchKey` it returns the "unable to GET user quota" error; on a successful
read it evicts in memory and reports `errMaxLimitExceeded` when
`len(Objects) >= MaxLimit`. -/
def checkSite (today : Date) (read : ReadResult) : CheckOutcome :=
  match read with
  | .otherErr => .ok
  | .noSuchKey => .siteFailure 0
  | .ok q _ =>
    let q1 := (UserQuota.Refresh today q).1
    if q1.MaxLimit ≤ q1.Objects.card then .exceeded else .ok

/-- The aggregation loop at the end of `checkQuota` (quota.go lines 200-209):
walk the per-site results; an `errMaxLimitExceeded` returns immediately, any
other non-nil error replaces `finalErr`; `finalErr` is returned at the end. -/
def aggregateCheckAux : List CheckOutcome → CheckOutcome → CheckOutcome
  | [], finalErr => finalErr
  | .exceeded :: _, _ => .exceeded
  | .ok :: rest, finalErr => aggregateCheckAux rest finalErr
  | .siteFailure c :: rest, _ => aggregateCheckAux rest (.siteFailure c)

/-- `checkQuota`'s aggregate verdict over the per-site results, starting from
a `nil` `finalErr`. -/
def checkQuotaAggregate (results : List CheckOutcome) : CheckOutcome :=
  aggregateCheckAux results .ok

/-- Error classes of `refreshQuota`'s per-user closure `refreshUserQuota`. -/
inductive RefreshResult where
  | ok
  | readErr
  | etagErr
  | writeErr
deriving DecidableEq

/-- The `refreshUserQuota` closure in `refreshQuota` (quota.go lines 214-231):
any read error aborts (no `NoSuchKey` special case here), an empty ETag
aborts, and the conditional PUT of the evicted quota is attempted only when
`Refresh()` reported a change. Second component: the PUT payload, if issued. -/
def refreshUserQuota (today : Date) (read : ReadResult) (writeSucceeds : Bool) :
    RefreshResult × Option UserQuota :=
  match read with
  | .noSuchKey => (.readErr, none)
  | .otherErr => (.readErr, none)
  | .ok q etag =>
    if etag = "" then (.etagErr, none)
    else
      let r := UserQuota.Refresh today q
      if r.2 then
        if writeSucceeds then (.ok, some r.1) else (.writeErr, some r.1)
      else (.ok, none)

/-- `strings.TrimSuffix(key, "/")`: drop one trailing separator if present. -/
def trimSlash (l : List Char) : List Char :=
  if l.getLast? = some '/' then l.dropLast else l

/-- One item of a site's `ListObjects` stream in `purge`: either a listing
error (`object.Err != nil`) or a partition key together with whether the
`RemoveObject` call for it would fail. -/
inductive ListItem where
  | listErr
  | entry (key : String) (deleteFails : Bool)
deriving DecidableEq

/-- What one site's `purge` sweep did: the keys for which `RemoveObject` was
called, the keys it actually deleted, and whether the sweep aborted on a
listing error. -/
structure PurgeOutcome where
  attempted : List String
  deleted : List String
  listingErr : Bool
deriving DecidableEq

/-- One site's loop in `purge` (quota.go lines 273-293): a listing error
aborts the sweep; otherwise strip a trailing `/`, skip keys that fail
`time.Parse`, and when `getCurrentDateInUTC().After(t)` holds force-delete
the partition, continuing past a failed delete. -/
def purgeSite (today : Date) : List ListItem → PurgeOutcome
  | [] => ⟨[], [], false⟩
  | .listErr :: _ => ⟨[], [], true⟩
  | .entry key df :: rest =>
    let k := String.mk (trimSlash key.data)
    match parseDateChars (trimSlash key.data) with
    | none => purgeSite today rest
    | some t =>
      if Date.after today t then
        let r := purgeSite today rest
        if df then ⟨k :: r.attempted, r.deleted, r.listingErr⟩
        else ⟨k :: r.attempted, k :: r.deleted, r.listingErr⟩
      else purgeSite today rest

/-- HTTP-level reaction classes of the ingestion endpoint. -/
inductive IngestResponse where
  | success
  | validationErr
  | quotaExceededResp
  | siteErr
deriving DecidableEq

/-- What a deterministic, fault-free site returns for `readUserQuota`:
`NoSuchKey` when it holds no ledger, otherwise the ledger with a fixed
nonempty ETag. -/
def siteRead (s : Option UserQuota) : ReadResult :=
  match s with
  | none => .noSuchKey
  | some q => .ok q "etag"

/-- Effect of one per-site update on a fault-free site's ledger: the PUT
payload when `updateLatestUserQuota` succeeded with a write, otherwise the
ledger is unchanged. -/
def siteApplyUpdate (today : Date) (maxLimit : Nat) (path : String)
    (s : Option UserQuota) : Option UserQuota :=
  let o := updateLatestUserQuota today maxLimit path (siteRead s) true
  match o.result, o.writeAttempt with
  | .ok, some q => some q
  | _, _ => s

/-- Fan-out of the update across all configured sites (fault-free model). -/
def fanoutUpdateSites (today : Date) (maxLimit : Nat) (path : String)
    (sites : List (Option UserQuota)) : List (Option UserQuota) :=
  sites.map (siteApplyUpdate today maxLimit path)

/-- Aggregate response of the update fan-out: surface `quotaExceeded`
preferentially, any other failure as a site error, else success. -/
def fanoutUpdateResponse (today : Date) (maxLimit : Nat) (path : String)
    (sites : List (Option UserQuota)) : IngestResponse :=
  let results := sites.map
    (fun s => (updateLatestUserQuota today maxLimit path (siteRead s) true).result)
  if results.any (fun r => r = UpdResult.quotaExceeded) then .quotaExceededResp
  else if results.any (fun r => ¬ r = UpdResult.ok) then .siteErr
  else .success

/-- Modelled from the spec: the multi-site notification handler (the caller
of `updateQuota` described in section 4.4 of the design) is not among the
source files; only older single-site, mutex-based handler revisions are.
Following the spec's words: an empty bucket or key is a silent no-op; the
unescaped key must split into at least 3 `/`-segments (second segment is the
user); the leading segment must parse as a date; a date not strictly after
the current UTC day is treated as already expired and answered with success
and no mutation; otherwise the update is fanned out to every site. -/
def ingest (today : Date) (maxLimit : Nat) (bucket object : String)
    (sites : List (Option UserQuota)) :
    IngestResponse × List (Option UserQuota) :=
  if bucket = "" ∨ object = "" then (.success, sites)
  else
    let tokens := splitOnChar '/' object.data
    if tokens.length < 3 then (.validationErr, sites)
    else
      match parseDateChars (tokens.headD []) with
      | none => (.validationErr, sites)
      | some d =>
        if Date.after d today = false then (.success, sites)
        else
          (fanoutUpdateResponse today maxLimit object sites,
           fanoutUpdateSites today maxLimit object sites)

/-- The removal predicate exactly as claim C2 states it (spec wording): fewer
than 3 segments, or an unparseable leading segment, or a parsed date **not
strictly after** `today` (so a date equal to `today` is removed). -/
def claimedStaleOrig (today : Date) (object : String) : Bool :=
  let tokens := splitOnChar '/' object.data
  if tokens.length < 3 then true
  else
    match parseDateChars (tokens.headD []) with
    | none => true
    | some t => decide (¬ today.key < t.key)

/-- The removal predicate of the amended claim: fewer than 3 segments, or an
unparseable leading segment, or a parsed date **strictly before** `today`
(a date equal to `today` is kept). -/
def claimedStaleAmended (today : Date) (object : String) : Bool :=
  let tokens := splitOnChar '/' object.data
  if tokens.length < 3 then true
  else
    match parseDateChars (tokens.headD []) with
    | none => true
    | some t => decide (t.key < today.key)

theorem isStaleEntry_eq_claimedStaleAmended :
    isStaleEntry = claimedStaleAmended := rfl

/-- Claim C1: the spec says a NoSuchKey read at a site is a skip (success)
and any other read error becomes that site's error. The code as written does
the opposite: the branch carrying the `// new user` comment returns `nil`
for every non-NoSuchKey failure, and NoSuchKey itself becomes the per-site
"unable to GET user quota" error. This theorem records the code's actual
behavior at both inputs. -/
theorem c1_check_read_error_handling :
    (∀ today : Date, checkSite today ReadResult.noSuchKey = CheckOutcome.siteFailure 0) ∧
      (∀ today : Date, checkSite today ReadResult.otherErr = CheckOutcome.ok) :=
  ⟨fun _ => rfl, fun _ => rfl⟩

/-- Claim C2, counterexample: with `today = 2025-Mar-05`, the entry
`"2025-Mar-05/usera/v1.vm"` is dated exactly `today`, so the claim's removal
predicate ("not strictly after today") marks it for removal — yet `Refresh`
keeps it, because the code only drops dates strictly before today. -/
theorem c2_counterexample :
    claimedStaleOrig ⟨2025, 3, 5⟩ "2025-Mar-05/usera/v1.vm" = true ∧
      "2025-Mar-05/usera/v1.vm" ∈
        (UserQuota.Refresh ⟨2025, 3, 5⟩
          ⟨{"2025-Mar-05/usera/v1.vm"}, 10⟩).1.Objects := by
  decide

/-- Claim C2 (amended): eviction removes exactly those entries whose path has
fewer than 3 `/`-segments, or whose leading segment fails date parsing, or
whose parsed date is strictly before `today` — an entry dated exactly `today`
is kept; all other entries are kept. -/
theorem c2_evict_removes_exactly_stale (today : Date) (q : UserQuota) (o : String) :
    o ∈ (UserQuota.Refresh today q).1.Objects ↔
      o ∈ q.Objects ∧ claimedStaleAmended today o = false := by
  rw [← isStaleEntry_eq_claimedStaleAmended]
  simp [UserQuota.Refresh, Finset.mem_filter]

/-- Claim C9: applying eviction twice with the same reference day yields the
same ledger as applying it once, and the second application reports that no
removal occurred. -/
theorem c9_evict_idempotent (today : Date) (q : UserQuota) :
    (UserQuota.Refresh today (UserQuota.Refresh today q).1).1 =
        (UserQuota.Refresh today q).1 ∧
      (UserQuota.Refresh today (UserQuota.Refresh today q).1).2 = false := by
  constructor
  · simp only [UserQuota.Refresh]
    rw [UserQuota.mk.injEq]
    refine ⟨?_, rfl⟩
    rw [Finset.filter_filter]
    simp only [and_self]
  · simp only [UserQuota.Refresh, decide_eq_false_iff_not]
    rintro ⟨o, ho, hs⟩
    rw [Finset.mem_filter] at ho
    rw [ho.2] at hs
    exact Bool.false_ne_true hs

/-- Claim C10: eviction only removes entries and touches nothing else — the
resulting entry set is a subset of the original, `MaxLimit` is unchanged, and
the returned boolean is `true` exactly when at least one entry was removed. -/
theorem c10_refresh_frame (today : Date) (q : UserQuota) :
    (UserQuota.Refresh today q).1.Objects ⊆ q.Objects ∧
      (UserQuota.Refresh today q).1.MaxLimit = q.MaxLimit ∧
      ((UserQuota.Refresh today q).2 = true ↔
        (UserQuota.Refresh today q).1.Objects ≠ q.Objects) := by
  refine ⟨Finset.filter_subset _ _, rfl, ?_⟩
  simp only [UserQuota.Refresh, decide_eq_true_eq]
  rw [Ne, Finset.filter_eq_self]
  constructor
  · rintro ⟨o, ho, hs⟩ hall
    have h := hall o ho
    rw [hs] at h
    exact Bool.noConfusion h
  · intro h
    by_contra hne
    push_neg at hne
    refine h (fun o ho => ?_)
    rcases Bool.eq_false_or_eq_true (isStaleEntry today o) with ht | hf
    · exact absurd ht (hne o ho)
    · exact hf

/-- The ledger `updateLatestUserQuota` holds after its read-and-evict phase:
`none` when the read failed hard, the fresh empty quota for a `NoSuchKey`
read, and the evicted ledger for a successful read. -/
def postEvictLedger (today : Date) (maxLimit : Nat) (read : ReadResult) :
    Option UserQuota :=
  match read with
  | .otherErr => none
  | .noSuchKey => some (newUserQuota maxLimit)
  | .ok q _ => some (UserQuota.Refresh today q).1

/-- Whether the read clears the ETag guard of `updateLatestUserQuota` (a
successful read must carry a nonempty ETag; the other cases never reach that
guard). -/
def etagAcceptable : ReadResult → Bool
  | .ok _ etag => !(decide (etag = ""))
  | _ => true

/-- Claim C3: when, after eviction, the candidate path is not already present
and one more entry would overflow the capacity, the per-site update returns
`errMaxLimitExceeded` and issues no write at all — the capacity check runs
strictly before any PUT, so the persisted ledger is untouched. -/
theorem c3_exceeded_means_no_write (today : Date) (maxLimit : Nat)
    (path : String) (read : ReadResult) (w : Bool) (L : UserQuota)
    (hL : postEvictLedger today maxLimit read = some L)
    (hetag : etagAcceptable read = true)
    (hnot : path ∉ L.Objects)
    (hcap : L.MaxLimit < L.Objects.card + 1) :
    updateLatestUserQuota today maxLimit path read w =
      ⟨UpdResult.quotaExceeded, none⟩ := by
  cases read with
  | otherErr => simp [postEvictLedger] at hL
  | noSuchKey =>
    simp only [postEvictLedger, Option.some.injEq] at hL
    subst hL
    simp only [newUserQuota, Finset.not_mem_empty, not_false_iff] at hnot hcap
    have hc : (insert path (∅ : Finset String)).card = 1 := by simp
    simp only [updateLatestUserQuota, newUserQuota]
    rw [if_pos]
    rw [hc]
    simpa using hcap
  | ok q0 etag =>
    simp only [postEvictLedger, Option.some.injEq] at hL
    simp only [etagAcceptable, Bool.not_eq_true', decide_eq_false_iff_not] at hetag
    rw [← hL] at hnot hcap
    have hc : (insert path (UserQuota.Refresh today q0).1.Objects).card =
        (UserQuota.Refresh today q0).1.Objects.card + 1 :=
      Finset.card_insert_of_not_mem hnot
    simp only [updateLatestUserQuota, if_neg hetag, if_neg hnot]
    rw [if_pos]
    rw [hc]
    exact hcap

theorem c3_witness :
    etagAcceptable (ReadResult.ok ⟨{"2025-Mar-06/usera/v1.vm"}, 1⟩ "e") = true ∧
      updateLatestUserQuota ⟨2025, 3, 5⟩ 1 "2025-Mar-06/usera/v2.vm"
          (ReadResult.ok ⟨{"2025-Mar-06/usera/v1.vm"}, 1⟩ "e") true =
        ⟨UpdResult.quotaExceeded, none⟩ :=
  ⟨by decide,
   c3_exceeded_means_no_write ⟨2025, 3, 5⟩ 1 "2025-Mar-06/usera/v2.vm"
     (ReadResult.ok ⟨{"2025-Mar-06/usera/v1.vm"}, 1⟩ "e") true
     ⟨{"2025-Mar-06/usera/v1.vm"}, 1⟩ (by decide) (by decide) (by decide)
     (by decide)⟩

/-- Claim C4, counterexample: when every attempt returns
`errMaxLimitExceeded`, the per-site loop still performs all 3 attempts — a
QuotaExceeded outcome is retried exactly like any other error, not treated
as terminal. -/
theorem c4_counterexample :
    (updateQuotaPerSite (fun _ => UpdResult.quotaExceeded)).1 = 3 ∧
      ¬ (updateQuotaPerSite (fun _ => UpdResult.quotaExceeded)).1 = 1 ∧
      (updateQuotaPerSite (fun _ => UpdResult.quotaExceeded)).2 =
        UpdResult.quotaExceeded := by
  decide

/-- Claim C4 (amended): the per-site loop retries on every non-`nil` error —
including QuotaExceeded — up to 3 attempts with a 3-second sleep after each
failed attempt; only a successful attempt stops the loop early, and after
exhausting the attempts the last error is returned. -/
theorem c4_retry_on_every_error (outcome : Nat → UpdResult) :
    updateQuotaPerSite outcome =
      if outcome 0 = UpdResult.ok then (1, UpdResult.ok)
      else if outcome 1 = UpdResult.ok then (2, UpdResult.ok)
      else (3, outcome 2) := by
  show updateQuotaLoop outcome UpdResult.ok 0 [0, 1, 2] = _
  by_cases h0 : outcome 0 = UpdResult.ok <;>
    by_cases h1 : outcome 1 = UpdResult.ok <;>
    by_cases h2 : outcome 2 = UpdResult.ok <;>
    simp [updateQuotaLoop, h0, h1, h2]

/-- Claim C5: a well-formed notification (nonempty bucket and key, at least 3
`/`-segments) whose leading date is not strictly after the current UTC day is
answered with success and mutates no site's ledger. -/
theorem c5_stale_notification_noop (today : Date) (maxLimit : Nat)
    (bucket object : String) (sites : List (Option UserQuota)) (d : Date)
    (hb : ¬ bucket = "") (ho : ¬ object = "")
    (hlen : ¬ (splitOnChar '/' object.data).length < 3)
    (hd : parseDateChars ((splitOnChar '/' object.data).headD []) = some d)
    (hstale : Date.after d today = false) :
    ingest today maxLimit bucket object sites = (IngestResponse.success, sites) := by
  have hor : ¬ (bucket = "" ∨ object = "") := by
    rintro (h | h)
    · exact hb h
    · exact ho h
  unfold ingest
  rw [if_neg hor, if_neg hlen, hd]
  simp [hstale]

theorem c5_witness :
    ¬ (splitOnChar '/' ("2025-Mar-04/usera/v1.vm" : String).data).length < 3 ∧
      ingest ⟨2025, 3, 5⟩ 10 "voicemails" "2025-Mar-04/usera/v1.vm"
          [some ⟨∅, 10⟩, none] =
        (IngestResponse.success, [some ⟨∅, 10⟩, none]) :=
  ⟨by decide,
   c5_stale_notification_noop ⟨2025, 3, 5⟩ 10 "voicemails"
     "2025-Mar-04/usera/v1.vm" [some ⟨∅, 10⟩, none] ⟨2025, 3, 4⟩ (by decide)
     (by decide) (by decide) (by decide) (by decide)⟩

/-- Any quota value `updateLatestUserQuota` hands to `updateUserQuota` fits
its own capacity: the `len(Objects) > MaxLimit` rejection runs before every
PUT. -/
theorem updateWriteAttempt_within_capacity (today : Date) (maxLimit : Nat)
    (path : String) (read : ReadResult) (w : Bool) (q : UserQuota)
    (h : (updateLatestUserQuota today maxLimit path read w).writeAttempt = some q) :
    q.Objects.card ≤ q.MaxLimit := by
  cases read with
  | otherErr => simp [updateLatestUserQuota] at h
  | noSuchKey =>
    simp only [updateLatestUserQuota] at h
    split at h
    · simp at h
    · rename_i hcap
      have hq : q = ⟨insert path (newUserQuota maxLimit).Objects, maxLimit⟩ := by
        split at h <;> simpa using h.symm
      rw [hq]
      exact Nat.le_of_not_lt hcap
  | ok q0 etag =>
    simp only [updateLatestUserQuota] at h
    split at h
    · simp at h
    · split at h
      · simp at h
      · split at h
        · simp at h
        · rename_i hcap
          have hq : q = ⟨insert path (UserQuota.Refresh today q0).1.Objects,
              (UserQuota.Refresh today q0).1.MaxLimit⟩ := by
            split at h <;> simpa using h.symm
          rw [hq]
          exact Nat.le_of_not_lt hcap

/-- The two ledger mutations of the system: one per-site update for a
notification, or one per-user refresh step of the maintenance sweep. -/
inductive Mutation where
  | update (today : Date) (maxLimit : Nat) (path : String) (read : ReadResult)
      (w : Bool)
  | refreshUser (today : Date) (read : ReadResult) (w : Bool)

/-- The site read a mutation starts from. -/
def mutationRead : Mutation → ReadResult
  | .update _ _ _ read _ => read
  | .refreshUser _ read _ => read

/-- The ledger a mutation persists, if its conditional write succeeded. -/
def mutationPersisted : Mutation → Option UserQuota
  | .update today mx path read w =>
    if w then (updateLatestUserQuota today mx path read w).writeAttempt else none
  | .refreshUser today read w =>
    if w then (refreshUserQuota today read w).2 else none

/-- Whether the ledger a mutation read was itself within capacity (the
invariant hypothesis; trivially true when there was no ledger to read). -/
def readWithinCapacity : ReadResult → Bool
  | .ok q _ => decide (q.Objects.card ≤ q.MaxLimit)
  | _ => true

/-- Claim C6: after every successful mutation — an accepted add via the
per-site update, or a persisted eviction via the refresh sweep — the written
ledger satisfies `|entries| ≤ capacity`. The update gives this outright; the
refresh write preserves it from the ledger it read (eviction only shrinks
the entry set and keeps `MaxLimit`). -/
theorem c6_capacity_invariant (m : Mutation) (q : UserQuota)
    (hinv : readWithinCapacity (mutationRead m) = true)
    (hq : mutationPersisted m = some q) :
    q.Objects.card ≤ q.MaxLimit := by
  cases m with
  | update today mx path read w =>
    simp only [mutationPersisted] at hq
    split at hq
    · exact updateWriteAttempt_within_capacity today mx path read w q hq
    · simp at hq
  | refreshUser today read w =>
    simp only [mutationPersisted] at hq
    split at hq
    · cases read with
      | otherErr => simp [refreshUserQuota] at hq
      | noSuchKey => simp [refreshUserQuota] at hq
      | ok q0 etag =>
        simp only [refreshUserQuota] at hq
        split at hq
        · simp at hq
        · split at hq
          · have hq2 : q = (UserQuota.Refresh today q0).1 := by
              simpa using hq.symm
            simp only [mutationRead, readWithinCapacity, decide_eq_true_eq] at hinv
            rw [hq2]
            calc (UserQuota.Refresh today q0).1.Objects.card
                ≤ q0.Objects.card := Finset.card_filter_le _ _
              _ ≤ q0.MaxLimit := hinv
          · simp at hq
    · simp at hq

theorem c6_witness :
    readWithinCapacity
        (mutationRead (Mutation.update ⟨2025, 3, 5⟩ 5 "2025-Mar-06/usera/v1.vm"
          (ReadResult.ok ⟨∅, 5⟩ "e") true)) = true ∧
      mutationPersisted (Mutation.update ⟨2025, 3, 5⟩ 5 "2025-Mar-06/usera/v1.vm"
          (ReadResult.ok ⟨∅, 5⟩ "e") true) =
        some ⟨{"2025-Mar-06/usera/v1.vm"}, 5⟩ ∧
      (⟨{"2025-Mar-06/usera/v1.vm"}, 5⟩ : UserQuota).Objects.card ≤
        (⟨{"2025-Mar-06/usera/v1.vm"}, 5⟩ : UserQuota).MaxLimit :=
  ⟨by decide, by decide,
   c6_capacity_invariant
     (Mutation.update ⟨2025, 3, 5⟩ 5 "2025-Mar-06/usera/v1.vm"
       (ReadResult.ok ⟨∅, 5⟩ "e") true)
     ⟨{"2025-Mar-06/usera/v1.vm"}, 5⟩ (by decide) (by decide)⟩

theorem aggAux_exceeded (rs : List CheckOutcome) :
    ∀ acc, CheckOutcome.exceeded ∈ rs →
      aggregateCheckAux rs acc = CheckOutcome.exceeded := by
  induction rs with
  | nil => intro acc h; exact absurd h (List.not_mem_nil _)
  | cons x rest ih =>
    intro acc h
    cases x with
    | exceeded => rfl
    | ok =>
      have hm : CheckOutcome.exceeded ∈ rest := by
        rcases List.mem_cons.mp h with h1 | h2
        · exact absurd h1 (by simp)
        · exact h2
      exact ih acc hm
    | siteFailure c =>
      have hm : CheckOutcome.exceeded ∈ rest := by
        rcases List.mem_cons.mp h with h1 | h2
        · exact absurd h1 (by simp)
        · exact h2
      exact ih (CheckOutcome.siteFailure c) hm

theorem aggAux_allOk (rs : List CheckOutcome) :
    ∀ acc, (∀ r ∈ rs, r = CheckOutcome.ok) → aggregateCheckAux rs acc = acc := by
  induction rs with
  | nil => intro acc _; rfl
  | cons x rest ih =>
    intro acc h
    have hx := h x (List.mem_cons_self _ _)
    subst hx
    exact ih acc (fun r hr => h r (List.mem_cons_of_mem _ hr))

theorem aggAux_failure (rs : List CheckOutcome) :
    ∀ acc, CheckOutcome.exceeded ∉ rs →
      (∃ c, CheckOutcome.siteFailure c ∈ rs) →
      ∃ c, CheckOutcome.siteFailure c ∈ rs ∧
        aggregateCheckAux rs acc = CheckOutcome.siteFailure c := by
  induction rs with
  | nil =>
    rintro acc _ ⟨c, hc⟩
    exact absurd hc (List.not_mem_nil _)
  | cons x rest ih =>
    rintro acc hne ⟨c, hc⟩
    cases x with
    | exceeded => exact absurd (List.mem_cons_self _ _) hne
    | ok =>
      have hc2 : CheckOutcome.siteFailure c ∈ rest := by
        rcases List.mem_cons.mp hc with h1 | h2
        · exact absurd h1 (by simp)
        · exact h2
      have hne2 : CheckOutcome.exceeded ∉ rest :=
        fun h => hne (List.mem_cons_of_mem _ h)
      rcases ih acc hne2 ⟨c, hc2⟩ with ⟨c2, hm, he⟩
      exact ⟨c2, List.mem_cons_of_mem _ hm, he⟩
    | siteFailure c0 =>
      have hne2 : CheckOutcome.exceeded ∉ rest :=
        fun h => hne (List.mem_cons_of_mem _ h)
      by_cases hrest : ∃ c2, CheckOutcome.siteFailure c2 ∈ rest
      · rcases ih (CheckOutcome.siteFailure c0) hne2 hrest with ⟨c2, hm, he⟩
        exact ⟨c2, List.mem_cons_of_mem _ hm, he⟩
      · have hallok : ∀ r ∈ rest, r = CheckOutcome.ok := by
          intro r hr
          cases r with
          | ok => rfl
          | exceeded => exact absurd hr hne2
          | siteFailure c2 => exact absurd ⟨c2, hr⟩ hrest
        exact ⟨c0, List.mem_cons_self _ _, aggAux_allOk rest _ hallok⟩

/-- Claim C7: in `checkQuota`'s aggregation, any site reporting
`errMaxLimitExceeded` makes the aggregate exceeded, regardless of the other
sites; with no exceeded site, some per-site error from the list (if any) is
returned; and with no errors at all the aggregate is success (`nil`). -/
theorem c7_check_aggregation (rs : List CheckOutcome) :
    (CheckOutcome.exceeded ∈ rs →
        checkQuotaAggregate rs = CheckOutcome.exceeded) ∧
      (CheckOutcome.exceeded ∉ rs →
        (∃ c, CheckOutcome.siteFailure c ∈ rs) →
        ∃ c, CheckOutcome.siteFailure c ∈ rs ∧
          checkQuotaAggregate rs = CheckOutcome.siteFailure c) ∧
      ((∀ r ∈ rs, r = CheckOutcome.ok) →
        checkQuotaAggregate rs = CheckOutcome.ok) :=
  ⟨fun h => aggAux_exceeded rs _ h,
   fun hne hex => aggAux_failure rs _ hne hex,
   fun h => aggAux_allOk rs _ h⟩

theorem c7_witness :
    checkQuotaAggregate
        [CheckOutcome.ok, CheckOutcome.siteFailure 7, CheckOutcome.exceeded] =
      CheckOutcome.exceeded ∧
      (∃ c, CheckOutcome.siteFailure c ∈
          [CheckOutcome.ok, CheckOutcome.siteFailure 7] ∧
        checkQuotaAggregate [CheckOutcome.ok, CheckOutcome.siteFailure 7] =
          CheckOutcome.siteFailure c) ∧
      checkQuotaAggregate [CheckOutcome.ok, CheckOutcome.ok] = CheckOutcome.ok :=
  ⟨(c7_check_aggregation _).1 (by decide),
   (c7_check_aggregation _).2.1 (by decide) ⟨7, by decide⟩,
   (c7_check_aggregation _).2.2 (by decide)⟩

/-- The part of a site's listing that `purge` processes: everything before
the first listing error. -/
def purgePrefix (items : List ListItem) : List ListItem :=
  items.takeWhile (fun i => !(decide (i = ListItem.listErr)))

theorem purgeSite_attempted_sound (today : Date) :
    ∀ items : List ListItem, ∀ k ∈ (purgeSite today items).attempted,
      ∃ t, parseDateChars k.data = some t ∧ Date.after today t = true := by
  intro items
  induction items with
  | nil => intro k hk; exact absurd hk (List.not_mem_nil _)
  | cons x rest ih =>
    intro k hk
    cases x with
    | listErr => exact absurd hk (List.not_mem_nil _)
    | entry key df =>
      rcases hp : parseDateChars (trimSlash key.data) with _ | t
      · rw [show purgeSite today (ListItem.entry key df :: rest) =
            purgeSite today rest by simp [purgeSite, hp]] at hk
        exact ih k hk
      · by_cases hafter : Date.after today t = true
        · have hred : (purgeSite today (ListItem.entry key df :: rest)).attempted =
              String.mk (trimSlash key.data) :: (purgeSite today rest).attempted := by
            cases df <;> simp [purgeSite, hp, hafter]
          rw [hred] at hk
          rcases List.mem_cons.mp hk with h1 | h2
          · subst h1
            exact ⟨t, hp, hafter⟩
          · exact ih k h2
        · rw [show purgeSite today (ListItem.entry key df :: rest) =
              purgeSite today rest by
                simp [purgeSite, hp, Bool.eq_false_iff.mpr hafter]] at hk
          exact ih k hk

theorem purgeSite_attempted_complete (today : Date) :
    ∀ items : List ListItem, ∀ key : String, ∀ df : Bool,
      ListItem.entry key df ∈ purgePrefix items →
      ∀ t, parseDateChars (trimSlash key.data) = some t →
        Date.after today t = true →
        String.mk (trimSlash key.data) ∈ (purgeSite today items).attempted ∧
          (df = false →
            String.mk (trimSlash key.data) ∈ (purgeSite today items).deleted) := by
  intro items
  induction items with
  | nil =>
    intro key df hmem
    exact absurd hmem (List.not_mem_nil _)
  | cons x rest ih =>
    intro key df hmem t hp hafter
    cases x with
    | listErr =>
      rw [show purgePrefix (ListItem.listErr :: rest) = [] from rfl] at hmem
      exact absurd hmem (List.not_mem_nil _)
    | entry key0 df0 =>
      have hpre : purgePrefix (ListItem.entry key0 df0 :: rest) =
          ListItem.entry key0 df0 :: purgePrefix rest := by
        simp [purgePrefix, List.takeWhile]
      rw [hpre] at hmem
      rcases List.mem_cons.mp hmem with h1 | h2
      · have hk : key0 = key := by
          injection h1.symm
        subst hk
        have hdf : df0 = df := by
          injection h1.symm
        subst hdf
        cases df0 with
        | false =>
          have hred : purgeSite today (ListItem.entry key0 false :: rest) =
              ⟨String.mk (trimSlash key0.data) ::
                  (purgeSite today rest).attempted,
                String.mk (trimSlash key0.data) :: (purgeSite today rest).deleted,
                (purgeSite today rest).listingErr⟩ := by
            simp [purgeSite, hp, hafter]
          rw [hred]
          exact ⟨List.mem_cons_self _ _, fun _ => List.mem_cons_self _ _⟩
        | true =>
          have hred : purgeSite today (ListItem.entry key0 true :: rest) =
              ⟨String.mk (trimSlash key0.data) ::
                  (purgeSite today rest).attempted,
                (purgeSite today rest).deleted,
                (purgeSite today rest).listingErr⟩ := by
            simp [purgeSite, hp, hafter]
          rw [hred]
          exact ⟨List.mem_cons_self _ _, fun h => Bool.noConfusion h⟩
      · have hrest := ih key df h2 t hp hafter
        rcases hq : parseDateChars (trimSlash key0.data) with _ | t0
        · rw [show purgeSite today (ListItem.entry key0 df0 :: rest) =
              purgeSite today rest by simp [purgeSite, hq]]
          exact hrest
        · by_cases hafter0 : Date.after today t0 = true
          · cases df0 with
            | false =>
              have hred : purgeSite today (ListItem.entry key0 false :: rest) =
                  ⟨String.mk (trimSlash key0.data) ::
                      (purgeSite today rest).attempted,
                    String.mk (trimSlash key0.data) ::
                      (purgeSite today rest).deleted,
                    (purgeSite today rest).listingErr⟩ := by
                simp [purgeSite, hq, hafter0]
              rw [hred]
              exact ⟨List.mem_cons_of_mem _ hrest.1,
                fun h => List.mem_cons_of_mem _ (hrest.2 h)⟩
            | true =>
              have hred : purgeSite today (ListItem.entry key0 true :: rest) =
                  ⟨String.mk (trimSlash key0.data) ::
                      (purgeSite today rest).attempted,
                    (purgeSite today rest).deleted,
                    (purgeSite today rest).listingErr⟩ := by
                simp [purgeSite, hq, hafter0]
              rw [hred]
              exact ⟨List.mem_cons_of_mem _ hrest.1, hrest.2⟩
          · rw [show purgeSite today (ListItem.entry key0 df0 :: rest) =
                purgeSite today rest by
                  simp [purgeSite, hq, Bool.eq_false_iff.mpr hafter0]]
            exact hrest

theorem purgeSite_listingErr (today : Date) :
    ∀ items : List ListItem,
      (purgeSite today items).listingErr = true ↔ ListItem.listErr ∈ items := by
  intro items
  induction items with
  | nil =>
    constructor
    · intro h; exact Bool.noConfusion h
    · intro h; exact absurd h (List.not_mem_nil _)
  | cons x rest ih =>
    cases x with
    | listErr =>
      constructor
      · intro _; exact List.mem_cons_self _ _
      · intro _; rfl
    | entry key df =>
      have hstep : (purgeSite today (ListItem.entry key df :: rest)).listingErr =
          (purgeSite today rest).listingErr := by
        rcases hq : parseDateChars (trimSlash key.data) with _ | t0
        · simp [purgeSite, hq]
        · by_cases hafter0 : Date.after today t0 = true
          · cases df <;> simp [purgeSite, hq, hafter0]
          · simp [purgeSite, hq, Bool.eq_false_iff.mpr hafter0]
      rw [hstep, ih]
      constructor
      · exact fun h => List.mem_cons_of_mem _ h
      · intro h
        rcases List.mem_cons.mp h with h1 | h2
        · exact absurd h1 (by simp)
        · exact h2

/-- Claim C8: over the processed part of a site's listing (everything before
the first listing error), every partition whose name — after stripping a
trailing separator — parses to a date strictly before today has its deletion
attempted (and performed when the delete does not fail), deletions only ever
target such strictly-past partitions (so a partition dated exactly today is
never deleted and unparseable names are skipped), a failed delete does not
stop the sweep, and the sweep aborts with an error exactly when the listing
produced one. -/
theorem c8_purge_sweep (today : Date) (items : List ListItem) :
    (∀ key df, ListItem.entry key df ∈ purgePrefix items →
        ∀ t, parseDateChars (trimSlash key.data) = some t →
          Date.after today t = true →
          String.mk (trimSlash key.data) ∈ (purgeSite today items).attempted ∧
            (df = false →
              String.mk (trimSlash key.data) ∈ (purgeSite today items).deleted)) ∧
      (∀ k ∈ (purgeSite today items).attempted,
        ∃ t, parseDateChars k.data = some t ∧ Date.after today t = true) ∧
      (∀ k ∈ (purgeSite today items).attempted,
        ¬ parseDateChars k.data = some today) ∧
      ((purgeSite today items).listingErr = true ↔
        ListItem.listErr ∈ items) := by
  refine ⟨fun key df hm t hp ha =>
      purgeSite_attempted_complete today items key df hm t hp ha,
    purgeSite_attempted_sound today items, ?_, purgeSite_listingErr today items⟩
  intro k hk hcontra
  rcases purgeSite_attempted_sound today items k hk with ⟨t, hp, ha⟩
  rw [hcontra] at hp
  injection hp with ht
  subst ht
  simp [Date.after] at ha

/-- A concrete listing for exercising `purgeSite`: a strictly-past partition
with a trailing separator, an unparseable key, a partition dated exactly
today, and a trailing listing error. -/
def purgeDemoItems : List ListItem :=
  [ListItem.entry "2025-Mar-04/" false, ListItem.entry "garbage" false,
   ListItem.entry "2025-Mar-05" false, ListItem.listErr]

theorem c8_witness :
    "2025-Mar-04" ∈ (purgeSite ⟨2025, 3, 5⟩ purgeDemoItems).attempted ∧
      "2025-Mar-04" ∈ (purgeSite ⟨2025, 3, 5⟩ purgeDemoItems).deleted ∧
      (purgeSite ⟨2025, 3, 5⟩ purgeDemoItems).listingErr = true := by
  refine ⟨?_, ?_, ?_⟩
  · exact ((c8_purge_sweep ⟨2025, 3, 5⟩ purgeDemoItems).1 "2025-Mar-04/" false
      (by decide) ⟨2025, 3, 4⟩ (by decide) (by decide)).1
  · exact ((c8_purge_sweep ⟨2025, 3, 5⟩ purgeDemoItems).1 "2025-Mar-04/" false
      (by decide) ⟨2025, 3, 4⟩ (by decide) (by decide)).2 rfl
  · exact (c8_purge_sweep ⟨2025, 3, 5⟩ purgeDemoItems).2.2.2.mpr (by decide)
